import Mathlib

/-
Verification of the llm-image-assertions library (src/src/index.ts).

The embedding models the pure data-processing core of the library:
  * `validateImage`  : precondition checks, model-reply cleaning, JSON
    extraction, threshold gating (index.ts, `ImageAssertions.validateImage`).
  * `generateImage`  : response decoding and error wrapping
    (index.ts, `ImageAssertions.generateImage`).
  * `toSatisfyImageAssertions` : the Jest matcher (index.ts, `expect.extend`).

The external inference collaborator (AWS Bedrock) is modelled as an explicit
argument carrying the collaborator's reply; `JSON.parse` is modelled by a
small executable JSON parser (`jsonParse`) covering the JSON fragment the
library actually consumes (objects, arrays, strings with common escapes,
integer numbers, booleans, null; `\u` escapes and fractional/exponent
number forms are outside the model).  JavaScript numbers are modelled as
`Int`; scores and thresholds in this library are small integers.
-/

namespace LlmImageAssertions

/-- The `\x7b` character (left curly brace). -/
def lbChar : Char := Char.ofNat 123

/-- The `\x7d` character (right curly brace). -/
def rbChar : Char := Char.ofNat 125

/-- Double-quote character. -/
def qChar : Char := Char.ofNat 34

/-- Backslash character. -/
def bsChar : Char := '\\'

/-- Newline character (target of the `replace(/\n/g, dotdot)` step). -/
def nlChar : Char := '\n'

/-- Whitespace in the sense of the JavaScript regex class `\s` (the ASCII
part plus no-break space; the exotic Unicode space characters are not
modelled, no input in scope contains them). -/
def isJsWs (c : Char) : Bool :=
  c == ' ' || c == '\t' || c == '\n' || c == '\r' || c == '\x0b' ||
  c == '\x0c' || c == '\xa0'

/-- Drop the longest whitespace run at the head of the list (models the
greedy `\s*` consumption after a matched fence marker, and one half of
`String.prototype.trim`). -/
def dropWs : List Char → List Char
  | [] => []
  | c :: cs => if isJsWs c then dropWs cs else c :: cs

/-- The longest whitespace run at the head of the list. -/
def takeWs : List Char → List Char
  | [] => []
  | c :: cs => if isJsWs c then c :: takeWs cs else []

/-- Model of `String.prototype.trim`: whitespace removed from both ends. -/
def trimChars (s : List Char) : List Char :=
  ((dropWs s).reverse |> dropWs).reverse

/-- Test `startsWith pat s`: `pat` is a leading block of `s`
(literal-match test used by the regex replacements). -/
def startsWith (pat : List Char) : List Char → Bool
  | s =>
    match pat, s with
    | [], _ => true
    | _ :: _, [] => false
    | p :: ps, c :: cs => p == c && startsWith ps cs

/-- Test `containsSeq pat s`: `pat` occurs as a contiguous block somewhere in
`s` (a literal regex such as three backticks has a match in `s`). -/
def containsSeq (pat : List Char) : List Char → Bool
  | [] => startsWith pat []
  | c :: cs => startsWith pat (c :: cs) || containsSeq pat cs

/-- Model of `text.replace(/PAT\s*/, '')` for a literal pattern `PAT`: remove the
first occurrence of `pat` together with the whitespace run after it; the
string is unchanged when there is no occurrence. -/
def stripFirst (pat : List Char) : List Char → List Char
  | [] => []
  | c :: cs =>
    if startsWith pat (c :: cs) then dropWs (List.drop pat.length (c :: cs))
    else c :: stripFirst pat cs

/-- The literal of the regex `/```json\s*/` (markdown code-block start). -/
def fenceJson : List Char := "```json".toList

/-- The literal of the regex `/```\s*/` (markdown code-block end). -/
def fence3 : List Char := "```".toList

/-- Model of `cleanedResponse.match(/\x7b.*\x7d/s)`: the greedy brace span, running
from the first left brace to the last right brace of the string; `none`
when no such span exists. -/
def braceSpan (s : List Char) : Option (List Char) :=
  let t := List.dropWhile (fun c => c != lbChar) s
  let u := (List.dropWhile (fun c => c != rbChar) t.reverse).reverse
  if t.isEmpty || u.isEmpty then none else some u

/-- The cleaning pipeline of `validateImage` (index.ts lines 295-299):
remove the first `BTBTBTjson` + whitespace, then the first remaining
`BTBTBT` + whitespace (BT a backtick), then every newline, then trim. -/
def cleanResponse (content : String) : List Char :=
  trimChars
    (List.filter (fun c => c != nlChar)
      (stripFirst fence3 (stripFirst fenceJson content.toList)))

/-- JSON values, as produced by `JSON.parse` on the payloads this library
consumes (numbers restricted to integers, see the module comment). -/
inductive JValue where
  | null : JValue
  | bool : Bool → JValue
  | num : Int → JValue
  | str : String → JValue
  | arr : List JValue → JValue
  | obj : List (String × JValue) → JValue

/-- Decoded form of a JSON string escape (the common single-character
escapes; `\u` escapes are outside the model). -/
def escChar (c : Char) : Option Char :=
  if c == qChar then some qChar
  else if c == bsChar then some bsChar
  else if c == '/' then some '/'
  else if c == 'n' then some '\n'
  else if c == 't' then some '\t'
  else if c == 'r' then some '\r'
  else if c == 'b' then some '\x08'
  else if c == 'f' then some '\x0c'
  else none

/-- Parse the remainder of a JSON string literal (the opening quote is
already consumed); returns the decoded characters and the rest. -/
def parseStrChars : List Char → Option (List Char × List Char)
  | [] => none
  | c :: cs =>
    if c == qChar then some ([], cs)
    else if c == bsChar then
      match cs with
      | [] => none
      | e :: cs2 =>
        match escChar e with
        | some ec =>
          match parseStrChars cs2 with
          | some (str, rest) => some (ec :: str, rest)
          | none => none
        | none => none
    else
      match parseStrChars cs with
      | some (str, rest) => some (c :: str, rest)
      | none => none

/-- Parse a nonempty digit run into a natural number. -/
def parseDigits (s : List Char) : Option (Int × List Char) :=
  let ds := s.takeWhile Char.isDigit
  if ds.isEmpty then none
  else some (Int.ofNat (ds.foldl (fun a c => a * 10 + (c.toNat - 48)) 0),
             s.dropWhile Char.isDigit)

/-- Parse a JSON number (integer form, optional leading minus). -/
def parseNum : List Char → Option (Int × List Char)
  | [] => none
  | c :: cs =>
    if c == '-' then
      match parseDigits cs with
      | some (n, rest) => some (-n, rest)
      | none => none
    else parseDigits (c :: cs)

mutual

/-- Parse one JSON value (fuelled recursion; the fuel is an upper bound on
the nesting work and is always supplied as `length + 1`). -/
def parseVal : Nat → List Char → Option (JValue × List Char)
  | 0, _ => none
  | Nat.succ fuel, s =>
    match dropWs s with
    | [] => none
    | c :: cs =>
      if c == qChar then
        match parseStrChars cs with
        | some (str, rest) => some (.str (String.mk str), rest)
        | none => none
      else if c == lbChar then
        match dropWs cs with
        | [] => none
        | d :: ds =>
          if d == rbChar then some (.obj [], ds)
          else parseMembers fuel [] (d :: ds)
      else if c == '[' then
        match dropWs cs with
        | [] => none
        | d :: ds =>
          if d == ']' then some (.arr [], ds)
          else parseItems fuel [] (d :: ds)
      else if c == 't' then
        if startsWith "rue".toList cs then some (.bool true, List.drop 3 cs)
        else none
      else if c == 'f' then
        if startsWith "alse".toList cs then some (.bool false, List.drop 4 cs)
        else none
      else if c == 'n' then
        if startsWith "ull".toList cs then some (.null, List.drop 3 cs)
        else none
      else
        match parseNum (c :: cs) with
        | some (n, rest) => some (.num n, rest)
        | none => none

/-- Parse the members of a JSON object after its opening brace (at least
one member; the empty object is handled by `parseVal`). -/
def parseMembers : Nat → List (String × JValue) → List Char →
    Option (JValue × List Char)
  | 0, _, _ => none
  | Nat.succ fuel, acc, s =>
    match dropWs s with
    | [] => none
    | c :: cs =>
      if c == qChar then
        match parseStrChars cs with
        | some (key, rest) =>
          match dropWs rest with
          | ':' :: rest2 =>
            match parseVal fuel rest2 with
            | some (v, rest3) =>
              match dropWs rest3 with
              | ',' :: rest4 =>
                parseMembers fuel (acc ++ [(String.mk key, v)]) rest4
              | d :: rest4 =>
                if d == rbChar then
                  some (.obj (acc ++ [(String.mk key, v)]), rest4)
                else none
              | [] => none
            | none => none
          | _ => none
        | none => none
      else none

/-- Parse the items of a JSON array after its opening bracket (at least
one item; the empty array is handled by `parseVal`). -/
def parseItems : Nat → List JValue → List Char →
    Option (JValue × List Char)
  | 0, _, _ => none
  | Nat.succ fuel, acc, s =>
    match parseVal fuel s with
    | some (v, rest) =>
      match dropWs rest with
      | ',' :: rest2 => parseItems fuel (acc ++ [v]) rest2
      | ']' :: rest2 => some (.arr (acc ++ [v]), rest2)
      | _ => none
    | none => none

end

/-- Model of `JSON.parse` on the JSON fragment in scope: parse one value and demand
that only whitespace follows; `none` models a thrown `SyntaxError`. -/
def jsonParse (s : List Char) : Option JValue :=
  match parseVal (s.length + 1) s with
  | some (v, rest) => if (dropWs rest).isEmpty then some v else none
  | none => none

/-- JavaScript property access `v.key` on a parsed JSON value: `none`
models `undefined` (non-objects have no own properties here; duplicate
keys resolve to the last occurrence, as in `JSON.parse`). -/
def jGet (v : JValue) (key : String) : Option JValue :=
  match v with
  | .obj fields => fields.reverse.lookup key
  | _ => none

/-- JavaScript truthiness of a possibly-absent value (`none` equals
`undefined`). -/
def jsTruthy : Option JValue → Bool
  | none => false
  | some .null => false
  | some (.bool b) => b
  | some (.num n) => n != 0
  | some (.str s) => s != ""
  | some (.arr _) => true
  | some (.obj _) => true

/-- The comparison `v >= t` for a possibly-absent JSON value against a
number, as used on `result.score` and on `received.score`: true exactly
when the value is a number at least `t` (comparison against `undefined`
is false in JavaScript; numeric coercion of non-number values is outside
the model, no claim in scope exercises it). -/
def jsNumGE (v : Option JValue) (t : Int) : Bool :=
  match v with
  | some (.num n) => decide (t ≤ n)
  | _ => false

/-- Strict equality `v === s` of a possibly-absent JSON value against a
string (strict equality never coerces). -/
def jsStrEq (v : Option JValue) (t : String) : Bool :=
  match v with
  | some (.str s) => s == t
  | _ => false

/-! Section: The validator (`ImageAssertions.validateImage`) -/

/-- The `ImageAssertionsInput` interface of index.ts.  Optional fields are
`Option`s (`none` = the property is not supplied); `assertionPrompt` is a
required `string` in the TypeScript interface, so it is a plain `String`
here.  The sampling fields are carried for interface fidelity; they only
flow into the outbound request, which the claims treat as opaque. -/
structure ImageAssertionsInput where
  imageBytes : Option (List Nat) := none
  base64Image : Option String := none
  assertionPrompt : String
  modelId : Option String := none
  confidenceThreshold : Option Int := none
  temperature : Option Rat := none
  topP : Option Rat := none
  maxTokensToSample : Option Int := none

/-- The verdict structure returned by `validateImage` (the
`ImageAssertionResponse` type of index.ts).  `assertionsMet` holds the
truthiness of the computed gate; the other three fields hold exactly what
property access on the parsed model reply produced (`none` models
`undefined`), since the source passes them through without validation. -/
structure ImageAssertionResponse where
  assertionsMet : Bool
  score : Option JValue
  tone : Option JValue
  explanation : Option JValue

/-- The distinguishable failure kinds of `validateImage`, one constructor
per throw-site family, carrying the thrown message.  `invalidInput` covers
the two precondition throws (the `InvalidInputError` kind of the spec);
`validationError` covers the reply-processing throws (the spec's
`ValidationError` kind).  The JSON-parse failure message stands in for the
engine-specific `SyntaxError` text. -/
inductive ValidateFailure where
  | invalidInput : String → ValidateFailure
  | validationError : String → ValidateFailure

/-- JavaScript falsiness of the optional `imageBytes` argument: a
`Uint8Array` object is always truthy, so only an absent value is falsy. -/
def jsBytesFalsy (v : Option (List Nat)) : Bool :=
  v.isNone

/-- JavaScript falsiness of the optional `base64Image` argument: absent or
the empty string. -/
def jsStrFalsy (v : Option String) : Bool :=
  match v with
  | none => true
  | some s => s == ""

/-- The resolved confidence threshold (destructuring default `7`). -/
def confTh (opts : ImageAssertionsInput) : Int :=
  opts.confidenceThreshold.getD 7

/-- Model of `ImageAssertions.validateImage` (index.ts lines 204-317), with the
single outbound Bedrock call replaced by its observable effect: `reply` is
the text of the first content block of the model's answer (`none` when it
is absent).  Everything after the two precondition checks and before the
return value is the source's cleaning / extraction / parse / gate
pipeline.  The outbound request construction (prompt template and
inference configuration, lines 226-284) only feeds the collaborator and is
treated as opaque data. -/
def validateImage (opts : ImageAssertionsInput) (reply : Option String) :
    Except ValidateFailure ImageAssertionResponse :=
  if jsBytesFalsy opts.imageBytes && jsStrFalsy opts.base64Image then
    .error (.invalidInput "Either imageBytes or base64Image must be provided")
  else if opts.assertionPrompt = "" then
    .error (.invalidInput "Assertion prompt is required")
  else
    match reply with
    | none => .error (.validationError "No validation output received from model")
    | some content =>
      if content = "" then
        .error (.validationError "No validation output received from model")
      else
        match braceSpan (cleanResponse content) with
        | none =>
          .error (.validationError "Model response did not include a valid JSON block")
        | some block =>
          match jsonParse (trimChars block) with
          | none => .error (.validationError "Unexpected token in JSON")
          | some r =>
            .ok { assertionsMet :=
                    jsNumGE (jGet r "score") (confTh opts) &&
                      jsTruthy (jGet r "assertionsMet"),
                  score := jGet r "score",
                  tone := jGet r "tone",
                  explanation := jGet r "explanation" }

/-- The extraction-plus-parse stage of `validateImage` on its own (clean,
greedy brace span, trim, `JSON.parse`); `validateImage` consumes a
successful result through the threshold gate. -/
def parseModelReply (content : String) : Option JValue :=
  match braceSpan (cleanResponse content) with
  | none => none
  | some block => jsonParse (trimChars block)

/-- A model reply wrapped in markdown code fences, as in the robustness
property of the spec. -/
def fenceWrap (j : String) : String :=
  "```json\n" ++ j ++ "\n```"

/-! Section: The generator (`ImageAssertions.generateImage`) -/

/-- The optional `imageConfig` object of `ImageGenerationInput`. -/
structure ImageGenerationConfig where
  width : Option Int := none
  height : Option Int := none
  quality : Option String := none
  cfgScale : Option Rat := none
  seed : Option Int := none

/-- The `ImageGenerationInput` interface of index.ts. -/
structure ImageGenerationInput where
  prompt : String
  modelId : Option String := none
  region : Option String := none
  imageConfig : ImageGenerationConfig := {}

/-- The Titan request body built by `generateImage` (index.ts lines
142-155), after the destructuring defaults are applied. -/
structure TitanRequestBody where
  taskType : String
  text : String
  numberOfImages : Int
  width : Int
  height : Int
  quality : String
  cfgScale : Rat
  seed : Option Int

/-- Request construction with the source's defaults. -/
def buildRequestBody (opts : ImageGenerationInput) : TitanRequestBody :=
  { taskType := "TEXT_IMAGE"
    text := opts.prompt
    numberOfImages := 1
    width := opts.imageConfig.width.getD 1024
    height := opts.imageConfig.height.getD 1024
    quality := opts.imageConfig.quality.getD "premium"
    cfgScale := opts.imageConfig.cfgScale.getD 8
    seed := opts.imageConfig.seed }

/-- Outcome of the transport collaborator (`client.send` plus
`TextDecoder`): a thrown failure with its message, or a response whose
optional body is already decoded to text. -/
inductive TransportOutcome where
  | throw : String → TransportOutcome
  | respond : Option String → TransportOutcome

/-- The `ImageGenerationResult` interface of index.ts. -/
structure ImageGenerationResult where
  imageBytes : List Nat
  base64Image : String
  modelId : String

/-- The single error kind of `generateImage` (the spec's
`GenerationError`), carrying the wrapped message. -/
structure GenerationError where
  message : String

/-- Value of a base64 alphabet character. -/
def b64Val (c : Char) : Option Nat :=
  if 'A' ≤ c && c ≤ 'Z' then some (c.toNat - 65)
  else if 'a' ≤ c && c ≤ 'z' then some (c.toNat - 97 + 26)
  else if '0' ≤ c && c ≤ '9' then some (c.toNat - 48 + 52)
  else if c == '+' then some 62
  else if c == '/' then some 63
  else none

/-- Byte assembly for base64 sextet groups (partial trailing groups keep
their complete bytes, as `Buffer.from(s, 'base64')` does). -/
def b64Bytes : List Nat → List Nat
  | a :: b :: c :: d :: rest =>
    (a * 4 + b / 16) :: ((b % 16) * 16 + c / 4) :: ((c % 4) * 64 + d) ::
      b64Bytes rest
  | [a, b] => [a * 4 + b / 16]
  | [a, b, c] => [a * 4 + b / 16, (b % 16) * 16 + c / 4]
  | _ => []

/-- Model of `Buffer.from(s, 'base64')` as raw bytes (characters outside the
alphabet, including padding, are ignored). -/
def decodeBase64 (s : String) : List Nat :=
  b64Bytes (s.toList.filterMap b64Val)

/-- Length of an array-or-string JSON value (property `.length`); `none`
models `undefined` on values with no such property. -/
def jLength : Option JValue → Option Nat
  | some (.arr xs) => some xs.length
  | some (.str s) => some s.length
  | _ => none

/-- Index access `v[0]` on an array-or-string JSON value. -/
def jIndex0 : Option JValue → Option JValue
  | some (.arr (x :: _)) => some x
  | some (.str s) =>
    match s.toList with
    | c :: _ => some (.str (String.mk [c]))
    | [] => none
  | _ => none

/-- Whether a JSON value is the null literal (accessing a property of
`null` throws in JavaScript). -/
def isNull : JValue → Bool
  | .null => true
  | _ => false

/-- The string value of a JSON value, `none` for non-strings (dispatch of
`Buffer.from` on its argument's type). -/
def asStr : JValue → Option String
  | .str s => some s
  | _ => none

/-- The body of the `try` block of `generateImage` (index.ts lines
164-191): every `.error` message here is an "original failure" message
that the `catch` block will wrap. -/
def generateImageCore (modelId : String) (t : TransportOutcome) :
    Except String ImageGenerationResult :=
  match t with
  | .throw m => .error m
  | .respond none => .error "No response body received from model"
  | .respond (some bodyText) =>
    match jsonParse bodyText.toList with
    | none => .error "Unexpected token in JSON"
    | some body =>
      if isNull body then .error "Cannot read properties of null" else
      let images := jGet body "images"
      if !jsTruthy images || jLength images == some 0 then
        .error "No images returned from model"
      else
        match jIndex0 images with
        | some v =>
          if !jsTruthy (some v) then .error "No image data found in response"
          else
            match asStr v with
            | some s =>
              .ok { imageBytes := decodeBase64 s, base64Image := s,
                    modelId := modelId }
            | none =>
              .error "The first argument must be of type string or an instance of Buffer"
        | none => .error "No image data found in response"

/-- The resolved generation model identifier (destructuring default). -/
def genModelId (opts : ImageGenerationInput) : String :=
  opts.modelId.getD "amazon.titan-image-generator-v2:0"

/-- Model of `ImageAssertions.generateImage` (index.ts lines 117-199): build the
request, consult the transport collaborator, and wrap any failure of the
`try` block into the single generation error kind carrying the original
message. -/
def generateImage (opts : ImageGenerationInput)
    (transport : TitanRequestBody → String → TransportOutcome) :
    Except GenerationError ImageGenerationResult :=
  match generateImageCore (genModelId opts)
      (transport (buildRequestBody opts) (genModelId opts)) with
  | .ok r => .ok r
  | .error m => .error ⟨"Image generation failed: " ++ m⟩

/-! Section: The matcher (`toSatisfyImageAssertions`) -/

/-- A `Partial ImageAssertionResponse` expectation: each field is present
or absent.  The TypeScript field types fix the value type per key
(`assertionsMet : boolean`, `score : number`, `tone`/`explanation` :
string). -/
structure MatcherExpectation where
  assertionsMet : Option Bool := none
  score : Option Int := none
  tone : Option String := none
  explanation : Option String := none

/-- A value appearing in an expectation entry. -/
inductive ExpectedValue where
  | ofBool : Bool → ExpectedValue
  | ofNum : Int → ExpectedValue
  | ofStr : String → ExpectedValue

/-- Model of `Object.entries(expected)`: the key/value pairs of the fields present
in the expectation (absent fields produce no entry). -/
def entriesOf (e : MatcherExpectation) : List (String × ExpectedValue) :=
  (match e.assertionsMet with
   | some b => [("assertionsMet", ExpectedValue.ofBool b)]
   | none => []) ++
  (match e.score with
   | some n => [("score", ExpectedValue.ofNum n)]
   | none => []) ++
  (match e.tone with
   | some t => [("tone", ExpectedValue.ofStr t)]
   | none => []) ++
  (match e.explanation with
   | some t => [("explanation", ExpectedValue.ofStr t)]
   | none => [])

/-- The per-entry check of the matcher's `every` callback (index.ts lines
335-346): `assertionsMet` by strict equality, `score` as an inclusive
lower bound on the verdict's score, `tone` by strict equality, any other
key by strict equality of `received[key]` against the value; a key that
is not a field of the verdict compares `undefined === value`, false. -/
def checkEntry (received : ImageAssertionResponse)
    (entry : String × ExpectedValue) : Bool :=
  if entry.fst = "assertionsMet" then
    match entry.snd with
    | .ofBool b => received.assertionsMet == b
    | _ => false
  else if entry.fst = "score" then
    match entry.snd with
    | .ofNum n => jsNumGE received.score n
    | _ => false
  else if entry.fst = "tone" then
    match entry.snd with
    | .ofStr t => jsStrEq received.tone t
    | _ => false
  else if entry.fst = "explanation" then
    match entry.snd with
    | .ofStr t => jsStrEq received.explanation t
    | _ => false
  else false

/-- The `pass` computation of the custom matcher `toSatisfyImageAssertions`
(index.ts lines 330-346): the conjunction of the per-entry checks over the
fields present in the expectation. -/
def toSatisfyImageAssertions (received : ImageAssertionResponse)
    (expected : MatcherExpectation) : Bool :=
  (entriesOf expected).all (checkEntry received)

/-! Section: Supporting lemmas on the character-list operations -/

theorem dropWs_cons_ws {c : Char} (cs : List Char) (h : isJsWs c = true) :
    dropWs (c :: cs) = dropWs cs := by
  conv_lhs => unfold dropWs
  rw [if_pos h]

theorem dropWs_cons_not_ws {c : Char} (cs : List Char) (h : isJsWs c = false) :
    dropWs (c :: cs) = c :: cs := by
  conv_lhs => unfold dropWs
  rw [if_neg (by simp [h])]

theorem mem_dropWs {a : Char} : ∀ {s : List Char}, a ∈ dropWs s → a ∈ s
  | [], h => h
  | c :: cs, h => by
    unfold dropWs at h
    split at h
    · exact List.mem_cons_of_mem c (mem_dropWs h)
    · exact h

theorem mem_drop {a : Char} : ∀ (n : Nat) (s : List Char), a ∈ List.drop n s → a ∈ s
  | 0, _, h => h
  | _ + 1, [], h => h
  | n + 1, c :: cs, h => List.mem_cons_of_mem c (mem_drop n cs h)

theorem dropWs_eq_nil {s : List Char} (h : ∀ c ∈ s, isJsWs c = true) :
    dropWs s = [] := by
  induction s with
  | nil => rfl
  | cons c cs ih =>
    unfold dropWs
    rw [if_pos (h c (List.mem_cons_self c cs))]
    exact ih fun x hx => h x (List.mem_cons_of_mem c hx)

theorem all_ws_of_dropWs {s : List Char} (h : dropWs s = []) :
    ∀ c ∈ s, isJsWs c = true := by
  induction s with
  | nil => intro c hc; cases hc
  | cons c cs ih =>
    unfold dropWs at h
    split at h
    · intro x hx
      rcases List.mem_cons.mp hx with rfl | hx
      · assumption
      · exact ih h x hx
    · cases h

theorem dropWs_append_nil {a : List Char} (b : List Char) (h : dropWs a = []) :
    dropWs (a ++ b) = dropWs b := by
  induction a with
  | nil => rfl
  | cons c cs ih =>
    have hc : isJsWs c = true := by
      by_contra hc
      rw [dropWs_cons_not_ws cs (Bool.eq_false_iff.mpr hc)] at h
      cases h
    rw [dropWs_cons_ws cs hc] at h
    rw [List.cons_append, dropWs_cons_ws (cs ++ b) hc]
    exact ih h

theorem dropWs_append_ne {a : List Char} (b : List Char) (h : dropWs a ≠ []) :
    dropWs (a ++ b) = dropWs a ++ b := by
  induction a with
  | nil => exact absurd rfl h
  | cons c cs ih =>
    by_cases hc : isJsWs c = true
    · rw [dropWs_cons_ws cs hc] at h ⊢
      rw [List.cons_append, dropWs_cons_ws (cs ++ b) hc]
      exact ih h
    · have hc' : isJsWs c = false := Bool.eq_false_iff.mpr hc
      have h1 : dropWs ((c :: cs) ++ b) = c :: (cs ++ b) := by
        rw [List.cons_append]
        exact dropWs_cons_not_ws (cs ++ b) hc'
      rw [h1, dropWs_cons_not_ws cs hc', List.cons_append]

theorem takeWs_cons_ws {c : Char} (cs : List Char) (h : isJsWs c = true) :
    takeWs (c :: cs) = c :: takeWs cs := by
  conv_lhs => unfold takeWs
  rw [if_pos h]

theorem takeWs_cons_not_ws {c : Char} (cs : List Char) (h : isJsWs c = false) :
    takeWs (c :: cs) = [] := by
  conv_lhs => unfold takeWs
  rw [if_neg (by simp [h])]

theorem takeWs_append_dropWs : ∀ s : List Char, takeWs s ++ dropWs s = s := by
  intro s
  induction s with
  | nil => rfl
  | cons c cs ih =>
    by_cases hc : isJsWs c = true
    · rw [takeWs_cons_ws cs hc, dropWs_cons_ws cs hc, List.cons_append, ih]
    · have hc' : isJsWs c = false := Bool.eq_false_iff.mpr hc
      rw [takeWs_cons_not_ws cs hc', dropWs_cons_not_ws cs hc', List.nil_append]

theorem mem_takeWs {a : Char} : ∀ {s : List Char}, a ∈ takeWs s → isJsWs a = true := by
  intro s
  induction s with
  | nil => intro h; cases h
  | cons c cs ih =>
    by_cases hc : isJsWs c = true
    · rw [takeWs_cons_ws cs hc]
      intro h
      rcases List.mem_cons.mp h with rfl | h
      · exact hc
      · exact ih h
    · rw [takeWs_cons_not_ws cs (Bool.eq_false_iff.mpr hc)]
      intro h; cases h

theorem mem_trimChars {a : Char} {s : List Char} (h : a ∈ trimChars s) : a ∈ s := by
  unfold trimChars at h
  exact mem_dropWs (List.mem_reverse.mp (mem_dropWs (List.mem_reverse.mp h)))

theorem trimChars_eq_nil {s : List Char} (h : ∀ c ∈ s, isJsWs c = true) :
    trimChars s = [] := by
  unfold trimChars
  rw [dropWs_eq_nil h]
  rfl

theorem trimChars_ws_append {w : List Char} (z : List Char)
    (h : ∀ c ∈ w, isJsWs c = true) : trimChars (w ++ z) = trimChars z := by
  unfold trimChars
  rw [dropWs_append_nil z (dropWs_eq_nil h)]

theorem startsWith_iff : ∀ (pat s : List Char),
    startsWith pat s = true ↔ ∃ t, s = pat ++ t
  | [], s => by simp [startsWith]
  | p :: ps, [] => by
    simp only [startsWith, List.cons_append]
    constructor
    · intro h; cases h
    · rintro ⟨t, ht⟩; cases ht
  | p :: ps, c :: cs => by
    simp only [startsWith, Bool.and_eq_true, beq_iff_eq, List.cons_append]
    constructor
    · rintro ⟨rfl, h⟩
      obtain ⟨t, rfl⟩ := (startsWith_iff ps cs).mp h
      exact ⟨t, rfl⟩
    · rintro ⟨t, ht⟩
      injection ht with h1 h2
      exact ⟨h1.symm, (startsWith_iff ps cs).mpr ⟨t, h2⟩⟩

theorem startsWith_append_self (pat t : List Char) :
    startsWith pat (pat ++ t) = true :=
  (startsWith_iff pat (pat ++ t)).mpr ⟨t, rfl⟩

theorem startsWith_of_append {p q s : List Char}
    (h : startsWith (p ++ q) s = true) : startsWith p s = true := by
  obtain ⟨t, rfl⟩ := (startsWith_iff _ _).mp h
  exact (startsWith_iff _ _).mpr ⟨q ++ t, by rw [List.append_assoc]⟩

theorem containsSeq_true_iff (pat : List Char) :
    ∀ s : List Char, containsSeq pat s = true ↔ ∃ u t, s = u ++ (pat ++ t)
  | [] => by
    unfold containsSeq
    rw [startsWith_iff]
    constructor
    · rintro ⟨t, ht⟩; exact ⟨[], t, ht⟩
    · rintro ⟨u, t, ht⟩
      rcases List.append_eq_nil.mp ht.symm with ⟨rfl, h2⟩
      exact ⟨t, by simpa using ht⟩
  | c :: cs => by
    unfold containsSeq
    rw [Bool.or_eq_true, startsWith_iff, containsSeq_true_iff pat cs]
    constructor
    · rintro (⟨t, ht⟩ | ⟨u, t, ht⟩)
      · exact ⟨[], t, ht⟩
      · exact ⟨c :: u, t, by rw [ht, List.cons_append]⟩
    · rintro ⟨u, t, ht⟩
      cases u with
      | nil => exact Or.inl ⟨t, by simpa using ht⟩
      | cons a u =>
        rw [List.cons_append] at ht
        injection ht with h1 h2
        exact Or.inr ⟨u, t, h2⟩

theorem containsSeq_split {pat : List Char} :
    ∀ {u s t : List Char}, containsSeq pat s = false → s = u ++ t →
      startsWith pat t = false := by
  intro u
  induction u with
  | nil =>
    intro s t hs ht
    simp only [List.nil_append] at ht
    subst ht
    cases hsw : startsWith pat s with
    | false => rfl
    | true =>
      obtain ⟨r, rfl⟩ := (startsWith_iff _ _).mp hsw
      rw [(containsSeq_true_iff pat _).mpr ⟨[], r, by simp⟩] at hs
      cases hs
  | cons a u ih =>
    intro s t hs ht
    cases s with
    | nil => simp at ht
    | cons b bs =>
      rw [List.cons_append] at ht
      injection ht with h1 h2
      have hbs : containsSeq pat bs = false := by
        unfold containsSeq at hs
        exact (Bool.or_eq_false_iff.mp hs).2
      exact ih hbs h2

theorem stripFirst_cons_match {pat : List Char} {c : Char} {cs : List Char}
    (h : startsWith pat (c :: cs) = true) :
    stripFirst pat (c :: cs) = dropWs (List.drop pat.length (c :: cs)) := by
  conv_lhs => unfold stripFirst
  rw [if_pos h]

theorem stripFirst_cons_no_match {pat : List Char} {c : Char} {cs : List Char}
    (h : startsWith pat (c :: cs) = false) :
    stripFirst pat (c :: cs) = c :: stripFirst pat cs := by
  conv_lhs => unfold stripFirst
  rw [if_neg (by simp [h])]

theorem stripFirst_no_match {pat : List Char} :
    ∀ {s : List Char}, (∀ u t, s = u ++ t → startsWith pat t = false) →
      stripFirst pat s = s := by
  intro s
  induction s with
  | nil => intro _; rfl
  | cons c cs ih =>
    intro h
    rw [stripFirst_cons_no_match (h [] (c :: cs) rfl)]
    rw [ih fun u t ht => h (c :: u) t (by rw [ht, List.cons_append])]

theorem stripFirst_append_left {pat y : List Char} :
    ∀ {x : List Char},
      (∀ u t, x = u ++ t → t ≠ [] → startsWith pat (t ++ y) = false) →
      stripFirst pat (x ++ y) = x ++ stripFirst pat y := by
  intro x
  induction x with
  | nil => intro _; rfl
  | cons c cs ih =>
    intro h
    have hc : startsWith pat (c :: (cs ++ y)) = false := by
      have h2 := h [] (c :: cs) rfl (List.cons_ne_nil c cs)
      rwa [List.cons_append] at h2
    rw [List.cons_append, stripFirst_cons_no_match hc,
        ih fun u t ht hne => h (c :: u) t (by rw [ht, List.cons_append]) hne,
        List.cons_append]

theorem stripFirst_prepend {pat : List Char} (t : List Char) (h : pat ≠ []) :
    stripFirst pat (pat ++ t) = dropWs t := by
  cases pat with
  | nil => exact absurd rfl h
  | cons p ps =>
    have hsw : startsWith (p :: ps) (p :: (ps ++ t)) = true := by
      have := startsWith_append_self (p :: ps) t
      rwa [List.cons_append] at this
    rw [List.cons_append, stripFirst_cons_match hsw, ← List.cons_append,
        List.drop_left]

theorem mem_stripFirst {a : Char} {pat : List Char} :
    ∀ {s : List Char}, a ∈ stripFirst pat s → a ∈ s := by
  intro s
  induction s with
  | nil => intro h; cases h
  | cons c cs ih =>
    intro h
    cases hsw : startsWith pat (c :: cs) with
    | true =>
      rw [stripFirst_cons_match hsw] at h
      exact mem_drop _ _ (mem_dropWs h)
    | false =>
      rw [stripFirst_cons_no_match hsw] at h
      rcases List.mem_cons.mp h with rfl | h
      · exact List.mem_cons_self a cs
      · exact List.mem_cons_of_mem c (ih h)

/-! Section: Cleaning a fenced reply versus the bare reply -/

theorem concat_decomp {d u t : List Char} {x : Char} (h : d ++ [x] = u ++ t)
    (hne : t ≠ []) : ∃ t3, t = t3 ++ [x] ∧ d = u ++ t3 := by
  rcases List.eq_nil_or_concat t with rfl | ⟨t3, a, rfl⟩
  · exact absurd rfl hne
  · rw [List.concat_eq_append, ← List.append_assoc] at h
    obtain ⟨h1, h2⟩ := List.append_inj' h rfl
    injection h2 with hxa
    exact ⟨t3, by rw [List.concat_eq_append, hxa], h1⟩

theorem no_f3_start (u t3 : List Char)
    (hd : containsSeq fence3 (u ++ t3) = false) :
    startsWith fence3 ((t3 ++ [nlChar]) ++ fence3) = false := by
  cases hsw : startsWith fence3 ((t3 ++ [nlChar]) ++ fence3) with
  | false => rfl
  | true =>
    exfalso
    obtain ⟨t, ht⟩ := (startsWith_iff _ _).mp hsw
    have htake : ((t3 ++ [nlChar]) ++ fence3).take 3 = fence3 := by
      rw [ht]
      have h3 : fence3.length = 3 := by decide
      rw [← h3, List.take_left]
    by_cases hlen : 3 ≤ t3.length
    · have h1 : ((t3 ++ [nlChar]) ++ fence3).take 3 = t3.take 3 := by
        rw [List.append_assoc]
        exact List.take_append_of_le_length hlen
      have h2 : t3 = fence3 ++ t3.drop 3 := by
        conv_lhs => rw [← List.take_append_drop 3 t3]
        rw [h1.symm.trans htake]
      have hcs : containsSeq fence3 (u ++ t3) = true := by
        rw [h2]
        exact (containsSeq_true_iff fence3 _).mpr ⟨u, t3.drop 3, rfl⟩
      rw [hcs] at hd
      cases hd
    · have hlen2 : (t3 ++ [nlChar]).length ≤ 3 := by
        simp only [List.length_append, List.length_singleton]
        omega
      have hnl : nlChar ∈ ((t3 ++ [nlChar]) ++ fence3).take 3 := by
        rw [List.take_append_eq_append_take, List.take_of_length_le hlen2]
        exact List.mem_append_left _ (List.mem_append_right _ (by simp))
      rw [htake] at hnl
      exact absurd hnl (by decide)

theorem strip3_concat (d : List Char) (hd : containsSeq fence3 d = false) :
    stripFirst fence3 ((d ++ [nlChar]) ++ fence3) = d ++ [nlChar] := by
  have h1 : stripFirst fence3 ((d ++ [nlChar]) ++ fence3) =
      (d ++ [nlChar]) ++ stripFirst fence3 fence3 := by
    apply stripFirst_append_left
    intro u t ht hne
    obtain ⟨t3, rfl, hd2⟩ := concat_decomp ht hne
    exact no_f3_start u t3 (hd2 ▸ hd)
  rw [h1, show stripFirst fence3 fence3 = [] from by decide, List.append_nil]

theorem fenceWrap_toList (j : String) :
    (fenceWrap j).toList =
      fenceJson ++ (nlChar :: (j.toList ++ (nlChar :: fence3))) := by
  show (("```json\n" ++ j) ++ "\n```").data = _
  rw [String.data_append, String.data_append,
      show ("```json\n" : String).data = fenceJson ++ [nlChar] from by decide,
      show ("\n```" : String).data = nlChar :: fence3 from by decide,
      List.append_assoc]
  rfl

theorem fenceWrap_ne_empty (j : String) : fenceWrap j ≠ "" := by
  intro h
  have h2 := congrArg String.toList h
  rw [fenceWrap_toList] at h2
  simp [String.toList] at h2

theorem clean_fence_eq (j : String) (h3 : containsSeq fence3 j.toList = false) :
    cleanResponse (fenceWrap j) = cleanResponse j := by
  have hfj : containsSeq fenceJson j.toList = false := by
    cases hc : containsSeq fenceJson j.toList with
    | false => rfl
    | true =>
      exfalso
      obtain ⟨u, t, ht⟩ := (containsSeq_true_iff _ _).mp hc
      have hcs : containsSeq fence3 j.toList = true := by
        refine (containsSeq_true_iff _ _).mpr ⟨u, "json".toList ++ t, ?_⟩
        rw [ht, show fenceJson = fence3 ++ "json".toList from by decide,
            List.append_assoc]
      rw [hcs] at h3
      cases h3
  have hstrip1 : stripFirst fenceJson j.toList = j.toList :=
    stripFirst_no_match fun u t ht => containsSeq_split hfj ht
  have hstrip2 : stripFirst fence3 j.toList = j.toList :=
    stripFirst_no_match fun u t ht => containsSeq_split h3 ht
  unfold cleanResponse
  rw [fenceWrap_toList, hstrip1, hstrip2,
      stripFirst_prepend _ (show fenceJson ≠ [] from by decide),
      dropWs_cons_ws _ (show isJsWs nlChar = true from by decide)]
  by_cases hdnil : dropWs j.toList = []
  · rw [dropWs_append_nil _ hdnil,
        show dropWs (nlChar :: fence3) = fence3 from by decide,
        show stripFirst fence3 fence3 = [] from by decide,
        List.filter_nil,
        trimChars_eq_nil fun c hc =>
          all_ws_of_dropWs hdnil c (List.mem_filter.mp hc).1]
    rfl
  · rw [dropWs_append_ne _ hdnil,
        show dropWs j.toList ++ (nlChar :: fence3) =
            (dropWs j.toList ++ [nlChar]) ++ fence3 from by
          rw [List.append_assoc]; rfl]
    have hd' : containsSeq fence3 (dropWs j.toList) = false := by
      cases hcd : containsSeq fence3 (dropWs j.toList) with
      | false => rfl
      | true =>
        exfalso
        obtain ⟨u, t, ht⟩ := (containsSeq_true_iff _ _).mp hcd
        have hcs : containsSeq fence3 j.toList = true := by
          refine (containsSeq_true_iff _ _).mpr ⟨takeWs j.toList ++ u, t, ?_⟩
          conv_lhs => rw [← takeWs_append_dropWs j.toList]
          rw [ht, List.append_assoc]
        rw [hcs] at h3
        cases h3
    rw [strip3_concat _ hd', List.filter_append,
        show List.filter (fun c => c != nlChar) [nlChar] = [] from by decide,
        List.append_nil]
    conv_rhs => rw [← takeWs_append_dropWs j.toList]
    rw [List.filter_append,
        trimChars_ws_append _ fun c hc => mem_takeWs (List.mem_filter.mp hc).1]

/-! Section: Reduction of `validateImage` under valid preconditions -/

theorem parseModelReply_empty : parseModelReply "" = none := rfl

theorem validateImage_eq_of_parse (opts : ImageAssertionsInput)
    (content : String) (j : JValue)
    (h1 : (jsBytesFalsy opts.imageBytes && jsStrFalsy opts.base64Image) = false)
    (h2 : opts.assertionPrompt ≠ "")
    (hp : parseModelReply content = some j) :
    validateImage opts (some content) =
      .ok { assertionsMet := jsNumGE (jGet j "score") (confTh opts) &&
              jsTruthy (jGet j "assertionsMet"),
            score := jGet j "score", tone := jGet j "tone",
            explanation := jGet j "explanation" } := by
  have hcne : content ≠ "" := by
    intro h
    rw [h, parseModelReply_empty] at hp
    cases hp
  unfold parseModelReply at hp
  cases hbs : braceSpan (cleanResponse content) with
  | none => rw [hbs] at hp; cases hp
  | some block =>
    rw [hbs] at hp
    have hp2 : jsonParse (trimChars block) = some j := hp
    simp [validateImage, h1, h2, hcne, hbs, hp2]

theorem mem_cleanResponse {a : Char} {content : String}
    (h : a ∈ cleanResponse content) : a ∈ content.toList :=
  mem_stripFirst (mem_stripFirst
    ((List.mem_filter.mp (mem_trimChars h)).1))

/-! Section: Concrete inputs used by the witnesses -/

/-- A validation call with a base64 image and a nonempty assertion. -/
def wOpts : ImageAssertionsInput :=
  { base64Image := some "QUJD", assertionPrompt := "an orange cat" }

/-- A well-formed model reply: score 9, boolean true, tone dreamy. -/
def c1Content : String :=
  "\x7b\"assertionsMet\": true, \"score\": 9, \"tone\": \"dreamy\", \"explanation\": \"ok\"\x7d"

/-- The parse of `c1Content`. -/
def c1Parsed : JValue :=
  .obj [("assertionsMet", .bool true), ("score", .num 9),
        ("tone", .str "dreamy"), ("explanation", .str "ok")]

/-- A reply whose `tone` is outside the `ImageTone` enumeration. -/
def c7Content : String :=
  "\x7b\"assertionsMet\": true, \"score\": 8, \"tone\": \"neon\", \"explanation\": \"x\"\x7d"

/-- The parse of `c7Content`. -/
def c7Parsed : JValue :=
  .obj [("assertionsMet", .bool true), ("score", .num 8),
        ("tone", .str "neon"), ("explanation", .str "x")]

/-- A JSON object whose explanation string contains a fence marker
followed by the letters `json`; wrapping this reply in markdown fences
changes which fence occurrence the two `replace` calls consume. -/
def cePlain : String :=
  "\x7b\"assertionsMet\": true, \"score\": 9, \"tone\": \"dreamy\", \"explanation\": \"a ```json b\"\x7d"

/-- The explanation field of a validation outcome (projection used to
separate two verdicts). -/
def explanationOf : Except ValidateFailure ImageAssertionResponse → Option JValue
  | .ok v => v.explanation
  | .error _ => none

/-! Section: Claim theorems -/

/-- C1: when the model reply parses to a JSON object carrying numeric
score `s` and boolean `b`, the verdict's `assertionsMet` equals
`decide (threshold ≤ s) && b` — true only if both the model's boolean is
true and the score reaches `confidenceThreshold` — and whenever the
threshold strictly exceeds the score the verdict has
`assertionsMet = false` regardless of `b`. -/
theorem c1_threshold_gates_assertions (opts : ImageAssertionsInput)
    (content : String) (j : JValue) (s : Int) (b : Bool)
    (h1 : (jsBytesFalsy opts.imageBytes && jsStrFalsy opts.base64Image) = false)
    (h2 : opts.assertionPrompt ≠ "")
    (hp : parseModelReply content = some j)
    (hs : jGet j "score" = some (.num s))
    (hb : jGet j "assertionsMet" = some (.bool b)) :
    validateImage opts (some content) =
      .ok { assertionsMet := decide (confTh opts ≤ s) && b,
            score := some (.num s), tone := jGet j "tone",
            explanation := jGet j "explanation" } ∧
    (s < confTh opts →
      validateImage opts (some content) =
        .ok { assertionsMet := false, score := some (.num s),
              tone := jGet j "tone",
              explanation := jGet j "explanation" }) := by
  have base := validateImage_eq_of_parse opts content j h1 h2 hp
  rw [hs, hb] at base
  constructor
  · rw [base]
    simp [jsNumGE, jsTruthy]
  · intro hlt
    rw [base]
    have hd : decide (confTh opts ≤ s) = false := decide_eq_false (by omega)
    simp [jsNumGE, jsTruthy, hd]

/-- Witness for C1: concrete reply with score 9 and boolean true against
the default threshold 7 yields `assertionsMet = true`. -/
theorem c1_witness :
    validateImage wOpts (some c1Content) =
      .ok { assertionsMet := true, score := some (.num 9),
            tone := some (.str "dreamy"),
            explanation := some (.str "ok") } :=
  ((c1_threshold_gates_assertions wOpts c1Content c1Parsed 9 true rfl
      (by decide) rfl rfl rfl).1).trans rfl

/-- C2: the matcher passes exactly when every field present in the
expectation passes its per-field check — strict equality for
`assertionsMet`, an inclusive lower bound for `score`, strict equality
for `tone` and for any other field — and in particular an
`assertionsMet`/`score` expectation passes iff the verdict's boolean is
true and its score is at least the expected one. -/
theorem c2_matcher_characterization :
    (∀ (r : ImageAssertionResponse) (e : MatcherExpectation),
      toSatisfyImageAssertions r e = true ↔
        ((∀ b, e.assertionsMet = some b → r.assertionsMet = b) ∧
         (∀ n, e.score = some n → jsNumGE r.score n = true) ∧
         (∀ t, e.tone = some t → jsStrEq r.tone t = true) ∧
         (∀ t, e.explanation = some t → jsStrEq r.explanation t = true))) ∧
    (∀ (r : ImageAssertionResponse) (n : Int),
      toSatisfyImageAssertions r
          { assertionsMet := some true, score := some n } = true ↔
        (r.assertionsMet = true ∧ jsNumGE r.score n = true)) := by
  constructor
  · intro r e
    obtain ⟨ea, es, et, ex⟩ := e
    cases ea <;> cases es <;> cases et <;> cases ex <;>
      simp [toSatisfyImageAssertions, entriesOf, checkEntry]
  · intro r n
    simp [toSatisfyImageAssertions, entriesOf, checkEntry]

/-- Witness for C2: a verdict with `assertionsMet = true` and score 9
satisfies the expectation `assertionsMet = true, score ≥ 7`. -/
theorem c2_witness :
    toSatisfyImageAssertions
        { assertionsMet := true, score := some (.num 9), tone := none,
          explanation := none }
        { assertionsMet := some true, score := some 7 } = true :=
  (c2_matcher_characterization.2
      { assertionsMet := true, score := some (.num 9), tone := none,
        explanation := none } 7).mpr ⟨rfl, by decide⟩

/-- C3: with both image forms falsy the call fails with the
missing-image precondition error, and with an empty assertion prompt it
fails with the missing-assertion precondition error — in both cases
uniformly in the collaborator's reply, i.e. before any network call. -/
theorem c3_precondition_errors (opts : ImageAssertionsInput)
    (reply : Option String) :
    (jsBytesFalsy opts.imageBytes = true → jsStrFalsy opts.base64Image = true →
      validateImage opts reply =
        .error (.invalidInput "Either imageBytes or base64Image must be provided")) ∧
    ((jsBytesFalsy opts.imageBytes && jsStrFalsy opts.base64Image) = false →
      opts.assertionPrompt = "" →
      validateImage opts reply =
        .error (.invalidInput "Assertion prompt is required")) := by
  constructor
  · intro ha hb
    simp [validateImage, ha, hb]
  · intro ha hb
    simp [validateImage, ha, hb]

/-- Witness for C3: no image supplied, any reply. -/
theorem c3_witness :
    validateImage { assertionPrompt := "x" } none =
      .error (.invalidInput "Either imageBytes or base64Image must be provided") :=
  (c3_precondition_errors { assertionPrompt := "x" } none).1 rfl rfl

/-- C4: `generateImage` wraps a transport failure, an absent body, a
missing or empty image list, and a falsy first image entry into the
single generation error kind carrying the original message, and every
outcome is either a success or such a wrapped error. -/
theorem c4_generation_error_wrapping (opts : ImageGenerationInput)
    (transport : TitanRequestBody → String → TransportOutcome) :
    (∀ m, transport (buildRequestBody opts) (genModelId opts) = .throw m →
      generateImage opts transport =
        .error ⟨"Image generation failed: " ++ m⟩) ∧
    (transport (buildRequestBody opts) (genModelId opts) = .respond none →
      generateImage opts transport =
        .error ⟨"Image generation failed: No response body received from model"⟩) ∧
    (∀ s body,
      transport (buildRequestBody opts) (genModelId opts) = .respond (some s) →
      jsonParse s.toList = some body → isNull body = false →
      (jGet body "images" = none ∨ jGet body "images" = some (.arr [])) →
      generateImage opts transport =
        .error ⟨"Image generation failed: No images returned from model"⟩) ∧
    (∀ s body v rest,
      transport (buildRequestBody opts) (genModelId opts) = .respond (some s) →
      jsonParse s.toList = some body → isNull body = false →
      jGet body "images" = some (.arr (v :: rest)) → jsTruthy (some v) = false →
      generateImage opts transport =
        .error ⟨"Image generation failed: No image data found in response"⟩) ∧
    ((∃ r, generateImage opts transport = .ok r) ∨
      (∃ m, generateImage opts transport =
        .error ⟨"Image generation failed: " ++ m⟩)) := by
  refine ⟨?_, ?_, ?_, ?_, ?_⟩
  · intro m h
    simp [generateImage, generateImageCore, h]
  · intro h
    simp [generateImage, generateImageCore, h]
  · intro s body h hj hn himg
    have hj2 : jsonParse s.data = some body := hj
    rcases himg with himg | himg <;>
      simp [generateImage, generateImageCore, h, hj2, hn, himg, jsTruthy,
        jLength]
  · intro s body v rest h hj hn himg hv
    have hj2 : jsonParse s.data = some body := hj
    have harr : jsTruthy (some (.arr (v :: rest))) = true := rfl
    simp [generateImage, generateImageCore, h, hj2, hn, himg, jIndex0, hv,
      jLength, harr]
  · cases hg : generateImageCore (genModelId opts)
        (transport (buildRequestBody opts) (genModelId opts)) with
    | ok r => exact Or.inl ⟨r, by simp [generateImage, hg]⟩
    | error m => exact Or.inr ⟨m, by simp [generateImage, hg]⟩

/-- Witness for C4: a response body with an empty image list fails with
the wrapped "No images returned from model" error (Scenario D). -/
theorem c4_witness :
    generateImage { prompt := "a cat" }
        (fun _ _ => .respond (some "\x7b\"images\": []\x7d")) =
      .error ⟨"Image generation failed: No images returned from model"⟩ :=
  (c4_generation_error_wrapping { prompt := "a cat" }
      (fun _ _ => .respond (some "\x7b\"images\": []\x7d"))).2.2.1
    "\x7b\"images\": []\x7d" (.obj [("images", .arr [])]) rfl rfl rfl
    (Or.inr rfl)

/-- C5 (amended): for every nonempty reply text `j` that does not contain
the fence marker (three backticks), validating the fenced reply yields
the same outcome as validating the bare reply.  (The original claim,
quantified over every JSON object text, fails when the JSON itself
contains a fence marker; see the counterexample.) -/
theorem c5_fence_equivalence (opts : ImageAssertionsInput) (j : String)
    (hne : j ≠ "") (hf : containsSeq fence3 j.toList = false) :
    validateImage opts (some (fenceWrap j)) = validateImage opts (some j) := by
  by_cases h1 : (jsBytesFalsy opts.imageBytes && jsStrFalsy opts.base64Image) = true
  · simp [validateImage, h1]
  · have h1' : (jsBytesFalsy opts.imageBytes && jsStrFalsy opts.base64Image) = false :=
      Bool.eq_false_iff.mpr h1
    by_cases h2 : opts.assertionPrompt = ""
    · simp [validateImage, h1', h2]
    · simp [validateImage, h1', h2, hne, fenceWrap_ne_empty j,
        clean_fence_eq j hf]

/-- Witness for C5: a fence-free JSON reply validates identically with
and without markdown fences. -/
theorem c5_witness :
    validateImage wOpts (some (fenceWrap c1Content)) =
      validateImage wOpts (some c1Content) :=
  c5_fence_equivalence wOpts c1Content (by decide) (by decide)

/-- C5 counterexample: for the JSON object text `cePlain`, whose
explanation contains a fence marker followed by `json`, the fenced and
bare replies produce different verdicts (the two `replace` calls consume
different fence occurrences, mangling the explanation differently), so
the claim as stated over every JSON object text is false. -/
theorem c5_counterexample :
    validateImage wOpts (some (fenceWrap cePlain)) ≠
      validateImage wOpts (some cePlain) := by
  intro h
  have h1 : explanationOf (validateImage wOpts (some (fenceWrap cePlain))) =
      some (.str "a json b") := rfl
  rw [h] at h1
  have h2 : explanationOf (validateImage wOpts (some cePlain)) =
      some (.str "a b") := rfl
  rw [h2] at h1
  injection h1 with h3
  injection h3 with h4
  exact absurd h4 (by decide)

/-- C6: a model reply containing no brace characters at all fails with
the (normal, distinguishable) validation error rather than crashing, and
the extraction of the cleaned string is the greedy span from the first
left brace to the last right brace. -/
theorem c6_no_brace_fails_validation (opts : ImageAssertionsInput)
    (content : String)
    (h1 : (jsBytesFalsy opts.imageBytes && jsStrFalsy opts.base64Image) = false)
    (h2 : opts.assertionPrompt ≠ "")
    (hlb : lbChar ∉ content.toList) (hrb : rbChar ∉ content.toList) :
    (content ≠ "" → validateImage opts (some content) =
      .error (.validationError "Model response did not include a valid JSON block")) ∧
    (content = "" → validateImage opts (some content) =
      .error (.validationError "No validation output received from model")) ∧
    (∀ a m b2, lbChar ∉ a → rbChar ∉ b2 →
      braceSpan (a ++ (lbChar :: (m ++ (rbChar :: b2)))) =
        some (lbChar :: (m ++ [rbChar]))) := by
  refine ⟨?_, ?_, ?_⟩
  · intro hc
    have hall : List.dropWhile (fun c => c != lbChar) (cleanResponse content) = [] := by
      rw [List.dropWhile_eq_nil_iff]
      intro x hx
      exact bne_iff_ne.mpr
        (ne_of_mem_of_not_mem (mem_cleanResponse hx) hlb)
    have hbs : braceSpan (cleanResponse content) = none := by
      simp [braceSpan, hall]
    simp [validateImage, h1, h2, hc, hbs]
  · intro hc
    simp [validateImage, h1, h2, hc]
  · intro a m b2 ha hb2
    have hlbne : ((lbChar != lbChar) : Bool) = false := by decide
    have hrbne : ((rbChar != rbChar) : Bool) = false := by decide
    have ht : List.dropWhile (fun c => c != lbChar)
        (a ++ (lbChar :: (m ++ (rbChar :: b2)))) =
        lbChar :: (m ++ (rbChar :: b2)) := by
      rw [List.dropWhile_append,
          List.dropWhile_eq_nil_iff.mpr fun x hx =>
            bne_iff_ne.mpr (ne_of_mem_of_not_mem hx ha)]
      simp [List.dropWhile_cons, hlbne]
    have hrev : (lbChar :: (m ++ (rbChar :: b2))).reverse =
        b2.reverse ++ (rbChar :: (m.reverse ++ [lbChar])) := by
      simp
    have h2b : List.dropWhile (fun c => c != rbChar) b2.reverse = [] :=
      List.dropWhile_eq_nil_iff.mpr fun x hx =>
        bne_iff_ne.mpr
          (ne_of_mem_of_not_mem (List.mem_reverse.mp hx) hb2)
    have hu : (List.dropWhile (fun c => c != rbChar)
        ((lbChar :: (m ++ (rbChar :: b2))).reverse)).reverse =
        lbChar :: (m ++ [rbChar]) := by
      rw [hrev, List.dropWhile_append, h2b]
      simp [List.dropWhile_cons, hrbne]
    simp only [braceSpan]
    rw [ht, hu]
    rfl

/-- Witness for C6: a brace-free reply fails with the
missing-JSON-block validation error. -/
theorem c6_witness :
    validateImage wOpts (some "no braces here") =
      .error (.validationError "Model response did not include a valid JSON block") :=
  (c6_no_brace_fails_validation wOpts "no braces here" rfl (by decide)
      (by decide) (by decide)).1 (by decide)

/-- C7: whenever the reply parses, the verdict carries the parsed
`score`, `tone` and `explanation` exactly as property access produced
them — no clamping of the score and no re-validation of the tone, so an
out-of-enumeration tone string passes through unchanged. -/
theorem c7_verdict_passthrough (opts : ImageAssertionsInput)
    (content : String) (j : JValue)
    (h1 : (jsBytesFalsy opts.imageBytes && jsStrFalsy opts.base64Image) = false)
    (h2 : opts.assertionPrompt ≠ "")
    (hp : parseModelReply content = some j) :
    validateImage opts (some content) =
      .ok { assertionsMet := jsNumGE (jGet j "score") (confTh opts) &&
              jsTruthy (jGet j "assertionsMet"),
            score := jGet j "score", tone := jGet j "tone",
            explanation := jGet j "explanation" } :=
  validateImage_eq_of_parse opts content j h1 h2 hp

/-- Witness for C7: a reply whose tone `"neon"` is outside the
enumeration is passed through as-is. -/
theorem c7_witness :
    validateImage wOpts (some c7Content) =
      .ok { assertionsMet := true, score := some (.num 8),
            tone := some (.str "neon"), explanation := some (.str "x") } :=
  (c7_verdict_passthrough wOpts c7Content c7Parsed rfl (by decide) rfl).trans
    rfl

/-- C8: `validateImage` is a pure function of its input and the
collaborator's reply — identical replies yield identical verdicts. -/
theorem c8_deterministic (opts : ImageAssertionsInput)
    (r1 r2 : Option String) (h : r1 = r2) :
    validateImage opts r1 = validateImage opts r2 := by
  rw [h]

/-- Witness for C8 at a concrete input and reply. -/
theorem c8_witness :
    validateImage wOpts (some c1Content) =
      validateImage wOpts (some c1Content) :=
  c8_deterministic wOpts (some c1Content) (some c1Content) rfl

/-- C9: the empty partial expectation checks no fields, so it matches
every verdict. -/
theorem c9_empty_expectation_matches (r : ImageAssertionResponse) :
    toSatisfyImageAssertions r {} = true := rfl

/-- C10: an empty-string `base64Image` is falsy, so with no raw bytes
the call fails with the missing-image precondition error instead of
proceeding; likewise an empty-string `assertionPrompt` is rejected. -/
theorem c10_empty_string_treated_absent (opts : ImageAssertionsInput)
    (reply : Option String) :
    (opts.imageBytes = none → opts.base64Image = some "" →
      validateImage opts reply =
        .error (.invalidInput "Either imageBytes or base64Image must be provided")) ∧
    ((jsBytesFalsy opts.imageBytes && jsStrFalsy opts.base64Image) = false →
      opts.assertionPrompt = "" →
      validateImage opts reply =
        .error (.invalidInput "Assertion prompt is required")) := by
  constructor
  · intro ha hb
    simp [validateImage, jsBytesFalsy, jsStrFalsy, ha, hb]
  · intro ha hb
    simp [validateImage, ha, hb]

/-- Witness for C10: empty-string image and no raw bytes, any reply. -/
theorem c10_witness :
    validateImage { base64Image := some "", assertionPrompt := "x" } none =
      .error (.invalidInput "Either imageBytes or base64Image must be provided") :=
  (c10_empty_string_treated_absent
      { base64Image := some "", assertionPrompt := "x" } none).1 rfl rfl

end LlmImageAssertions
